import Mathlib

/-!
# mipsec — verification of the tunnel reconciliation and remediation engine

Shallow embedding of `src/mipsec.py` (class `TunnelChecker`, function
`run_daemon`).  Python strings are Lean `String`s; values that may arrive
from the VICI collaborator either as `bytes` or as `str` are modelled by
`VStr`.  External effects (the `ipsec` subprocess, `time.sleep`) are
modelled as traces of events, and the collaborator's security-association
listing is modelled as the flattened sequence of record fetches the nested
`for` loops of `TunnelChecker.run` consume, each of which may raise.
-/

namespace Mipsec

/-- A Python value that is either a byte string or a text string
(the VICI collaborator may deliver either). -/
inductive VStr
  | bytes (s : String)
  | text (s : String)
deriving DecidableEq

/-- Python `str(x, "UTF-8")`: decodes a byte string; raises `TypeError`
when applied to a value that is already a text string. -/
def decodeUtf8 : VStr → Except Unit String
  | .bytes s => .ok s
  | .text _ => .error ()

/-- The name normalisation of `TunnelChecker.run` (lines 192–195):
`if type(childSAName) == bytes: name = str(childSAName, "UTF-8")
else: name = childSAName`. -/
def normName : VStr → String
  | .bytes s => s
  | .text s => s

/-- Index of the last occurrence of `c` in a character list, if any. -/
def lastIndexOf (c : Char) : List Char → Option Nat
  | [] => none
  | x :: xs =>
    match lastIndexOf c xs with
    | some i => some (i + 1)
    | none => if x = c then some 0 else none

/-- Python `s.rfind(c)`: index of the last occurrence of `c`, `-1` if absent. -/
def pyRfind (s : String) (c : Char) : Int :=
  match lastIndexOf c s.toList with
  | some i => (i : Int)
  | none => -1

/-- Python `s.isnumeric()`: true iff `s` is non-empty and every character is
numeric.  Modelled for ASCII text, where it holds exactly when every
character is a decimal digit; Unicode numeric characters outside ASCII are
not modelled. -/
def pyIsNumeric (s : String) : Bool :=
  !s.toList.isEmpty && s.toList.all Char.isDigit

/-- One live child-SA record as consumed by `TunnelChecker.run`:
the mapping key (`childSAName`) and the `state` field, each of which the
collaborator may deliver as bytes or text. -/
structure SARecord where
  name : VStr
  state : VStr
deriving DecidableEq

/-- The body of the innermost loop of `TunnelChecker.run` (lines 197–212),
after `state` and `name` have been obtained as text: the exact-match check,
then the numeric-suffix (name-ID format) check, each removing the matched
tunnel from the current down list when the state is INSTALLED. -/
def processRecord (down : List String) (name state : String) : List String :=
  if name ∈ down ∧ state = "INSTALLED" then
    down.erase name
  else
    let lastDash := pyRfind name '-'
    if 0 < lastDash then
      if pyIsNumeric (String.mk (name.toList.drop (lastDash.toNat + 1))) then
        let rest := String.mk (name.toList.take lastDash.toNat)
        if rest ∈ down ∧ state = "INSTALLED" then down.erase rest else down
      else down
    else down

/-- Processing one raw record (lines 190–212): `state` is decoded with
`str(·, "UTF-8")` — raising when it is already text — and the name is
normalised from bytes or text; then the matching of `processRecord` runs. -/
def processRawRecord (down : List String) (r : SARecord) :
    Except Unit (List String) := do
  let state ← decodeUtf8 r.state
  let name := normName r.name
  .ok (processRecord down name state)

/-- Consuming the flattened security-association listing (the nested loops of
lines 185–212).  Each element of `listing` is one fetch from the collaborator:
either a record or an exception raised while iterating; an exception — from
the iterator or from decoding — aborts the whole traversal. -/
def runCycleAux (down : List String) :
    List (Except Unit SARecord) → Except Unit (List String)
  | [] => .ok down
  | .error e :: _ => .error e
  | .ok r :: rest =>
    match processRawRecord down r with
    | .error e => .error e
    | .ok d => runCycleAux d rest

/-- The observable outcome of `TunnelChecker.run`: its return value and the
list `resetTunnels` was invoked on (`[]` when `resetTunnels` is not reached). -/
structure RunOutcome where
  code : Nat
  remediated : List String
deriving DecidableEq

/-- `TunnelChecker.run` (lines 175–223): start from a copy of the configured
tunnels, consume the listing inside `try`, return 1 on any exception; then
return 1 after invoking `resetTunnels` when tunnels remain down, else 0. -/
def runCycle (tunnels : List String) (listing : List (Except Unit SARecord)) :
    RunOutcome :=
  match runCycleAux tunnels listing with
  | .error _ => ⟨1, []⟩
  | .ok downTunnels =>
    if downTunnels.length > 0 then ⟨1, downTunnels⟩ else ⟨0, []⟩

/-- An observable external effect of the remediation code: one invocation of
the external `ipsec` tool, or one `time.sleep`. -/
inductive Ev
  | invoke (action tunnel : String)
  | wait (t : Nat)
deriving DecidableEq

/-- The loop body of `TunnelChecker._run_ipsec_command` (lines 121–147),
iterating over the remaining attempt indices of `range(max_retries)`.
`oracle attempt` tells whether the subprocess invocation of that attempt
exits with status 0 (any non-zero exit, timeout or invocation error counts
as failure).  On failure, when `attempt < max_retries - 1`, a backoff sleep
of `retry_delay * 2 ** attempt` happens before the next attempt.  Returns
the success flag together with the trace of invocations and sleeps. -/
def runCmdGo (oracle : Nat → Bool) (m d : Nat) (action tunnel : String) :
    List Nat → Bool × List Ev
  | [] => (false, [])
  | attempt :: rest =>
    if oracle attempt then
      (true, [Ev.invoke action tunnel])
    else
      let ws : List Ev := if attempt < m - 1 then [Ev.wait (d * 2 ^ attempt)] else []
      let res := runCmdGo oracle m d action tunnel rest
      (res.1, Ev.invoke action tunnel :: (ws ++ res.2))

/-- `TunnelChecker._run_ipsec_command(action, tunnel)` (lines 110–150):
`for attempt in range(self.max_retries)` with `m = max_retries` and
`d = retry_delay`; returns `False` after the loop exhausts all attempts. -/
def runCommand (oracle : Nat → Bool) (m d : Nat) (action tunnel : String) :
    Bool × List Ev :=
  runCmdGo oracle m d action tunnel (List.range m)

/-- Number of external-tool invocations in a trace. -/
def invokeCount (tr : List Ev) : Nat :=
  (tr.filter fun e => match e with | .invoke _ _ => true | .wait _ => false).length

/-- The sleep durations of a trace, in order. -/
def waitTimes (tr : List Ev) : List Nat :=
  tr.filterMap fun e => match e with | .invoke _ _ => none | .wait t => some t

/-- The per-tunnel body of `TunnelChecker.resetTunnels` (lines 159–173):
run the command with action `"down"`; if it reports success, `time.sleep(1)`
and then run the command with action `"up"`; otherwise skip `"up"`.
`downO`/`upO` are the success oracles of the two commands' attempts. -/
def resetTunnel (downO upO : Nat → Bool) (m d : Nat) (tunnel : String) :
    List Ev :=
  let down := runCommand downO m d "down" tunnel
  if down.1 then
    down.2 ++ Ev.wait 1 :: (runCommand upO m d "up" tunnel).2
  else
    down.2

/-- `TunnelChecker.resetTunnels` (lines 152–173): reset each down tunnel in
order; the oracles may depend on the tunnel. -/
def resetTunnels (downO upO : String → Nat → Bool) (m d : Nat)
    (downTunnels : List String) : List Ev :=
  downTunnels.flatMap fun t => resetTunnel (downO t) (upO t) m d t

/-- An exception escaping the daemon loop body: `KeyboardInterrupt`, or any
other unexpected exception. -/
inductive DaemonExc
  | interrupt
  | other
deriving DecidableEq

/-- The `while True` loop of `run_daemon` (lines 237–241) together with its
exception handlers (lines 242–247).  `cycles k` is the outcome of the `k`-th
iteration (`checker.run()` followed by `time.sleep(interval)`): either it
completes with the cycle's return value, or an exception escapes it.  `fuel`
bounds how many iterations are modelled; `none` means the loop is still
running after `fuel` iterations.  `KeyboardInterrupt` leads to `sys.exit(0)`,
any other exception to `sys.exit(6)`. -/
def runDaemonAux (cycles : Nat → Except DaemonExc Nat) :
    Nat → Nat → Option Nat
  | _, 0 => none
  | k, fuel + 1 =>
    match cycles k with
    | .ok _ => runDaemonAux cycles (k + 1) fuel
    | .error .interrupt => some 0
    | .error .other => some 6

/-- `run_daemon` (lines 226–247), starting from the first iteration. -/
def run_daemon (cycles : Nat → Except DaemonExc Nat) (fuel : Nat) :
    Option Nat :=
  runDaemonAux cycles 0 fuel

/-- What the configuration file can contribute in
`TunnelChecker.loadConfiguration` (lines 79–108): an absent or unreadable
file is non-fatal and contributes nothing; a YAML document that is not a
list exits with 2; a list containing a non-string exits with 3; a list of
strings contributes those names. -/
inductive ConfigSource
  | absent
  | strings (names : List String)
  | notAList
  | badElement

/-- `TunnelChecker.loadConfiguration`: the names contributed to
`self.tunnels`, or the fatal exit code. -/
def loadConfiguration : ConfigSource → Except Nat (List String)
  | .absent => .ok []
  | .strings names => .ok names
  | .notAList => .error 2
  | .badElement => .error 3

/-- The construction of the monitored tunnel list in `TunnelChecker.__init__`
(lines 35–50): `self.tunnels = []`, then `loadConfiguration` extends it with
the config-file names, then — after the no-tunnels check, which exits with 1
when both the CLI list and the config contribution are empty —
`self.tunnels.extend(tunnels)` appends the CLI names. -/
def initTunnels (cli : List String) (cfg : ConfigSource) :
    Except Nat (List String) :=
  match loadConfiguration cfg with
  | .error c => .error c
  | .ok cfgNames =>
    if ¬ cli.length > 0 ∧ cfgNames = [] then .error 1
    else .ok (cfgNames ++ cli)

/-- Spec-side description of the name-ID identifier format: the raw
identifier is a non-empty base name, followed by its last `-` character,
followed by a non-empty run of decimal digits. -/
def SuffixMatch (name base : String) : Prop :=
  ∃ ds : List Char, ds ≠ [] ∧ (∀ c ∈ ds, c.isDigit) ∧ '-' ∉ ds ∧
    base.toList ≠ [] ∧ name.toList = base.toList ++ '-' :: ds

/-- Two record fetches that agree except possibly in whether each string
field's content is delivered as bytes or as text would, per the spec, be
interchangeable.  For the identifier this relation allows either
representation; the state field is kept identical (the code does not
tolerate both representations there — see C3). -/
def ReprEquiv : Except Unit SARecord → Except Unit SARecord → Prop
  | .error _, .error _ => True
  | .ok a, .ok b => normName a.name = normName b.name ∧ a.state = b.state
  | _, _ => False

/-!
## Helper lemmas
-/

theorem toList_mk (l : List Char) : (String.mk l).toList = l := rfl

theorem mk_toList (s : String) : String.mk s.toList = s := rfl

theorem processRecord_exact (down : List String) (name : String)
    (h : name ∈ down) :
    processRecord down name "INSTALLED" = down.erase name := by
  simp [processRecord, h]

theorem processRecord_state_ne (down : List String) (name state : String)
    (h : state ≠ "INSTALLED") :
    processRecord down name state = down := by
  simp [processRecord, h]

theorem lastIndexOf_eq_none_of_not_mem {c : Char} {l : List Char}
    (h : c ∉ l) : lastIndexOf c l = none := by
  induction l with
  | nil => rfl
  | cons x xs ih =>
    have hx : x ≠ c := fun hxc => h (hxc ▸ List.mem_cons_self x xs)
    have hxs : c ∉ xs := fun hm => h (List.mem_cons_of_mem x hm)
    simp [lastIndexOf, ih hxs, hx]

theorem not_mem_of_lastIndexOf_eq_none {c : Char} {l : List Char}
    (h : lastIndexOf c l = none) : c ∉ l := by
  induction l with
  | nil => simp
  | cons x xs ih =>
    simp only [lastIndexOf] at h
    cases hxs : lastIndexOf c xs with
    | some j => rw [hxs] at h; exact absurd h (by simp)
    | none =>
      rw [hxs] at h
      have hx : ¬ x = c := by
        intro hxc
        rw [if_pos hxc] at h
        exact absurd h (by simp)
      intro hm
      rcases List.mem_cons.1 hm with hcx | hcxs
      · exact hx hcx.symm
      · exact ih hxs hcxs

theorem lastIndexOf_append (c : Char) (pre post : List Char)
    (hpost : c ∉ post) :
    lastIndexOf c (pre ++ c :: post) = some pre.length := by
  induction pre with
  | nil =>
    simp [lastIndexOf, lastIndexOf_eq_none_of_not_mem hpost]
  | cons x pre' ih =>
    have hstep : lastIndexOf c (x :: (pre' ++ c :: post)) =
        match lastIndexOf c (pre' ++ c :: post) with
        | some i => some (i + 1)
        | none => if x = c then some 0 else none := rfl
    rw [List.cons_append, hstep, ih, List.length_cons]

theorem lastIndexOf_some (c : Char) :
    ∀ (l : List Char) (i : Nat), lastIndexOf c l = some i →
      ∃ pre post, l = pre ++ c :: post ∧ pre.length = i ∧ c ∉ post := by
  intro l
  induction l with
  | nil => intro i h; exact absurd h (by simp [lastIndexOf])
  | cons x xs ih =>
    intro i h
    simp only [lastIndexOf] at h
    cases hxs : lastIndexOf c xs with
    | some j =>
      rw [hxs] at h
      obtain ⟨pre, post, hdec, hlen, hnm⟩ := ih j hxs
      refine ⟨x :: pre, post, by rw [hdec, List.cons_append], ?_, hnm⟩
      simp only [List.length_cons, hlen]
      exact Option.some.inj h
    | none =>
      rw [hxs] at h
      by_cases hx : x = c
      · rw [if_pos hx] at h
        have hi : (0 : Nat) = i := Option.some.inj h
        exact ⟨[], xs, by simp [hx], by simpa using hi,
          not_mem_of_lastIndexOf_eq_none hxs⟩
      · rw [if_neg hx] at h
        exact absurd h (by simp)

theorem pyIsNumeric_iff (ds : List Char) :
    pyIsNumeric (String.mk ds) = true ↔ ds ≠ [] ∧ ∀ c ∈ ds, c.isDigit := by
  simp [pyIsNumeric, toList_mk, List.all_eq_true, List.isEmpty_iff]

theorem suffixMatch_iff_code (name base : String) :
    SuffixMatch name base ↔
      ∃ i : Nat, lastIndexOf '-' name.toList = some i ∧ 0 < i ∧
        pyIsNumeric (String.mk (name.toList.drop (i + 1))) = true ∧
        base.toList = name.toList.take i := by
  constructor
  · rintro ⟨ds, hne, hdig, hnd, hbne, heq⟩
    refine ⟨base.toList.length, ?_, ?_, ?_, ?_⟩
    · rw [heq]; exact lastIndexOf_append '-' base.toList ds hnd
    · exact List.length_pos.2 hbne
    · have hdrop : name.toList.drop (base.toList.length + 1) = ds := by
        rw [heq]
        have : base.toList ++ '-' :: ds = (base.toList ++ ['-']) ++ ds := by
          simp
        rw [this]
        have hlen : (base.toList ++ ['-']).length = base.toList.length + 1 := by
          simp
        rw [← hlen, List.drop_left]
      rw [hdrop, pyIsNumeric_iff]
      exact ⟨hne, hdig⟩
    · rw [heq, List.take_left]
  · rintro ⟨i, hli, hpos, hnum, hbase⟩
    obtain ⟨pre, post, hdec, hlen, hnm⟩ := lastIndexOf_some '-' name.toList i hli
    have htake : name.toList.take i = pre := by rw [hdec, ← hlen, List.take_left]
    have hdrop : name.toList.drop (i + 1) = post := by
      rw [hdec, ← hlen]
      have : pre ++ '-' :: post = (pre ++ ['-']) ++ post := by simp
      rw [this]
      have hlen2 : (pre ++ ['-']).length = pre.length + 1 := by simp
      rw [← hlen2, List.drop_left]
    rw [hdrop, pyIsNumeric_iff] at hnum
    refine ⟨post, hnum.1, hnum.2, hnm, ?_, ?_⟩
    · rw [hbase, htake]
      intro hpre
      rw [hpre] at hlen
      simp at hlen
      omega
    · rw [hbase, htake, hdec]

theorem suffixMatch_dash_mem {name base : String} (h : SuffixMatch name base) :
    '-' ∈ name.toList := by
  obtain ⟨ds, _, _, _, _, heq⟩ := h
  rw [heq]
  simp

theorem suffixMatch_unique {name b₁ b₂ : String}
    (h₁ : SuffixMatch name b₁) (h₂ : SuffixMatch name b₂) : b₁ = b₂ := by
  obtain ⟨i, hli₁, _, _, hb₁⟩ := (suffixMatch_iff_code _ _).1 h₁
  obtain ⟨j, hli₂, _, _, hb₂⟩ := (suffixMatch_iff_code _ _).1 h₂
  have hij : i = j := Option.some.inj (hli₁ ▸ hli₂)
  rw [← mk_toList b₁, ← mk_toList b₂, hb₁, hb₂, hij]

theorem processRecord_suffix (down : List String) (name state base : String)
    (hex : ¬(name ∈ down ∧ state = "INSTALLED"))
    (hsm : SuffixMatch name base) (hb : base ∈ down)
    (hs : state = "INSTALLED") :
    processRecord down name state = down.erase base := by
  obtain ⟨i, hli, hpos, hnum, hbase⟩ := (suffixMatch_iff_code name base).1 hsm
  have hrf : pyRfind name '-' = (i : Int) := by
    have hli' : lastIndexOf '-' name.data = some i := hli
    simp [pyRfind, hli']
  have hrest : String.mk (name.toList.take i) = base := by
    rw [← hbase, mk_toList]
  simp only [processRecord, if_neg hex, hrf]
  rw [if_pos (by exact_mod_cast hpos), Int.toNat_natCast, if_pos hnum, hrest,
    if_pos ⟨hb, hs⟩]

theorem processRecord_no_match (down : List String) (name state : String)
    (hex : ¬(name ∈ down ∧ state = "INSTALLED"))
    (hns : ¬ ∃ base, SuffixMatch name base ∧ base ∈ down ∧
      state = "INSTALLED") :
    processRecord down name state = down := by
  simp only [processRecord, if_neg hex]
  cases hli : lastIndexOf '-' name.toList with
  | none =>
    have hrf : pyRfind name '-' = -1 := by
      have hli' : lastIndexOf '-' name.data = none := hli
      simp [pyRfind, hli']
    rw [hrf, if_neg (by norm_num)]
  | some i =>
    have hrf : pyRfind name '-' = (i : Int) := by
      have hli' : lastIndexOf '-' name.data = some i := hli
      simp [pyRfind, hli']
    rw [hrf]
    by_cases hpos : 0 < i
    · rw [if_pos (by exact_mod_cast hpos), Int.toNat_natCast]
      by_cases hnum :
          pyIsNumeric (String.mk (name.toList.drop (i + 1))) = true
      · rw [if_pos hnum, if_neg]
        rintro ⟨hmem, hst⟩
        exact hns ⟨String.mk (name.toList.take i),
          (suffixMatch_iff_code _ _).2 ⟨i, hli, hpos, hnum, (toList_mk _).symm⟩,
          hmem, hst⟩
      · rw [if_neg hnum]
    · rw [if_neg (by exact_mod_cast hpos)]

/-!
## The claims
-/

/-- C4: suffix-stripped matching — after a failed exact-match check, the base
name is removed from the DownSet exactly when the raw identifier is a
non-empty base name followed by its last dash (hence at position > 0) and a
non-empty run of decimal digits, the base name is in the current DownSet,
and the record's state is INSTALLED; any record not of that shape leaves the
DownSet unchanged. -/
theorem claim_C4_suffix_match (down : List String) (name state : String)
    (hex : ¬(name ∈ down ∧ state = "INSTALLED")) :
    (∀ base, SuffixMatch name base → base ∈ down → state = "INSTALLED" →
      processRecord down name state = down.erase base) ∧
    ((¬ ∃ base, SuffixMatch name base ∧ base ∈ down ∧ state = "INSTALLED") →
      processRecord down name state = down) :=
  ⟨fun base hsm hb hs => processRecord_suffix down name state base hex hsm hb hs,
   fun hns => processRecord_no_match down name state hex hns⟩

/-- C4 witness: for configured name `site`, identifier `site-123` (INSTALLED)
removes `site`, while `site-abc` removes nothing via the suffix path. -/
theorem claim_C4_suffix_match_wit :
    processRecord ["site"] "site-123" "INSTALLED" = [] ∧
    processRecord ["site"] "site-abc" "INSTALLED" = ["site"] := by
  constructor
  · have hsm : SuffixMatch "site-123" "site" :=
      ⟨['1', '2', '3'], by decide, by decide, by decide, by decide, by decide⟩
    have h := (claim_C4_suffix_match ["site"] "site-123" "INSTALLED"
      (by decide)).1 "site" hsm (by decide) rfl
    rw [h]
    decide
  · have hns : ¬ ∃ base, SuffixMatch "site-abc" base ∧ base ∈ ["site"] ∧
        ("INSTALLED" : String) = "INSTALLED" := by
      rintro ⟨base, hsm, -, -⟩
      obtain ⟨i, hli, -, hnum, -⟩ := (suffixMatch_iff_code _ _).1 hsm
      have h4 : lastIndexOf '-' "site-abc".toList = some 4 := by decide
      have hi : i = 4 := Option.some.inj (h4 ▸ hli).symm
      rw [hi] at hnum
      exact absurd hnum (by decide)
    exact (claim_C4_suffix_match ["site"] "site-abc" "INSTALLED"
      (by decide)).2 hns

/-- C5: a live record whose identifier is exactly a configured name N with
state INSTALLED removes N from the DownSet, and — given the data model's
invariants that the DownSet holds unique identifiers none of which is itself
in name-ID format — N is removed at most once: once gone, any further record
matching N exactly or via the numeric suffix leaves the DownSet unchanged. -/
theorem claim_C5_removed_once (down : List String) (N : String)
    (hnd : down.Nodup) (hmem : N ∈ down)
    (hvalid : ∀ p ∈ down, ∀ b, ¬ SuffixMatch p b) :
    processRecord down N "INSTALLED" = down.erase N ∧
    N ∉ down.erase N ∧
    (∀ name state, name = N ∨ SuffixMatch name N →
      processRecord (down.erase N) name state = down.erase N) := by
  have h2 : N ∉ down.erase N := by
    intro hc
    exact absurd ((List.Nodup.mem_erase_iff hnd).1 hc).1 (by simp)
  refine ⟨processRecord_exact down N hmem, h2, ?_⟩
  rintro name state (rfl | hsm)
  · apply processRecord_no_match
    · rintro ⟨hmem', -⟩
      exact h2 hmem'
    · rintro ⟨b, hsm', -, -⟩
      exact hvalid name hmem b hsm'
  · apply processRecord_no_match
    · rintro ⟨hmem', -⟩
      exact hvalid name (List.erase_subset N down hmem') N hsm
    · rintro ⟨b, hsm', hb, -⟩
      rw [suffixMatch_unique hsm' hsm] at hb
      exact h2 hb

/-- C5 witness: with DownSet `[siteA, siteB]`, an exact INSTALLED record for
`siteA` removes it, and a duplicate record for `siteA` (exact) against the
updated DownSet changes nothing. -/
theorem claim_C5_removed_once_wit :
    processRecord ["siteA", "siteB"] "siteA" "INSTALLED" = ["siteB"] ∧
    processRecord ["siteB"] "siteA" "INSTALLED" = ["siteB"] := by
  have hvalid : ∀ p ∈ ["siteA", "siteB"], ∀ b, ¬ SuffixMatch p b := by
    intro p hp b hsm
    have hd := suffixMatch_dash_mem hsm
    rcases List.mem_cons.1 hp with rfl | hp'
    · exact absurd hd (by decide)
    · rcases List.mem_cons.1 hp' with rfl | hp''
      · exact absurd hd (by decide)
      · simp at hp''
  have h := claim_C5_removed_once ["siteA", "siteB"] "siteA"
    (by decide) (by decide) hvalid
  constructor
  · rw [h.1]
    decide
  · have h3 := h.2.2 "siteA" "INSTALLED" (Or.inl rfl)
    have herase : (["siteA", "siteB"] : List String).erase "siteA" = ["siteB"] := by
      decide
    rw [herase] at h3
    exact h3

/-- C6: a record whose state is not INSTALLED never removes any tunnel from
the DownSet, regardless of how its identifier relates to the configured
names. -/
theorem claim_C6_frame (down : List String) (name state : String)
    (h : state ≠ "INSTALLED") :
    processRecord down name state = down :=
  processRecord_state_ne down name state h

/-- C6 witness: a REKEYED record with an exactly matching identifier leaves
the DownSet unchanged. -/
theorem claim_C6_frame_wit :
    processRecord ["a"] "a" "REKEYED" = ["a"] :=
  claim_C6_frame ["a"] "a" "REKEYED" (by decide)

theorem processRawRecord_congr (down : List String) {a b : SARecord}
    (hn : normName a.name = normName b.name) (hs : a.state = b.state) :
    processRawRecord down a = processRawRecord down b := by
  simp only [processRawRecord, hn, hs]

theorem runCycleAux_congr (down : List String) :
    ∀ l₁ l₂, List.Forall₂ ReprEquiv l₁ l₂ →
      runCycleAux down l₁ = runCycleAux down l₂ := by
  intro l₁ l₂ h
  induction h generalizing down with
  | nil => rfl
  | cons ha htail ih =>
    rename_i a b t₁ t₂
    cases a with
    | error ea =>
      cases b with
      | error eb => rfl
      | ok rb => exact absurd ha (by simp [ReprEquiv])
    | ok ra =>
      cases b with
      | error eb => exact absurd ha (by simp [ReprEquiv])
      | ok rb =>
        obtain ⟨hn, hs⟩ := ha
        have hrec := processRawRecord_congr down hn hs
        show (match processRawRecord down ra with
          | Except.error e => Except.error e
          | Except.ok d => runCycleAux d t₁) =
          (match processRawRecord down rb with
          | Except.error e => Except.error e
          | Except.ok d => runCycleAux d t₂)
        rw [hrec]
        cases processRawRecord down rb with
        | error e => rfl
        | ok d => exact ih d

theorem runCycleAux_error_append :
    ∀ (pre : List (Except Unit SARecord)) (down : List String)
      (post : List (Except Unit SARecord)),
      ∃ e, runCycleAux down (pre ++ Except.error () :: post) =
        Except.error e := by
  intro pre
  induction pre with
  | nil => exact fun down post => ⟨(), rfl⟩
  | cons x pre' ih =>
    intro down post
    cases x with
    | error u => exact ⟨u, rfl⟩
    | ok r =>
      cases h : processRawRecord down r with
      | error e => exact ⟨e, by simp [runCycleAux, h]⟩
      | ok d =>
        obtain ⟨e, he⟩ := ih d post
        exact ⟨e, by simp [runCycleAux, h, he]⟩

/-- C1 counterexample: the run value for a cycle whose collaborator query
fails equals the value for a cycle in which tunnels remain down — the code
returns 1 in both cases, so the query-failure outcome is not distinct. -/
theorem claim_C1_cex :
    (runCycle ["a"] [Except.error ()]).code = 1 ∧
    (runCycle ["a"] []).code = 1 ∧
    (runCycle ["a"] []).remediated = ["a"] ∧
    (runCycle ["a"] [Except.error ()]).code = (runCycle ["a"] []).code := by
  decide

/-- C1 amended: a failed collaborator query makes the cycle return 1 — the
same value as when tunnels remain down after remediation was attempted —
and the all-up value 0 is returned exactly when the query succeeded with no
tunnel left down. -/
theorem claim_C1_amended (tunnels : List String)
    (listing : List (Except Unit SARecord)) :
    ((∃ e, runCycleAux tunnels listing = Except.error e) →
      (runCycle tunnels listing).code = 1) ∧
    (∀ d, runCycleAux tunnels listing = Except.ok d → d ≠ [] →
      (runCycle tunnels listing).code = 1) ∧
    (∀ d, runCycleAux tunnels listing = Except.ok d → d = [] →
      (runCycle tunnels listing).code = 0) := by
  refine ⟨?_, ?_, ?_⟩
  · rintro ⟨e, he⟩
    simp [runCycle, he]
  · intro d hd hne
    have hl : d.length > 0 := List.length_pos.2 hne
    simp [runCycle, hd, hl]
  · rintro d hd rfl
    simp [runCycle, hd]

/-- C1 amended witness: a concrete failing query yields run value 1. -/
theorem claim_C1_amended_wit :
    (runCycle ["a"] [Except.error ()]).code = 1 :=
  (claim_C1_amended ["a"] [Except.error ()]).1 ⟨(), rfl⟩

/-- C2 counterexample: with CLI list `["a"]` and a config file contributing
`["a"]`, the constructed monitored list is `["a", "a"]` — the name shared by
both sources occurs twice, so duplicates are not collapsed. -/
theorem claim_C2_cex :
    initTunnels ["a"] (ConfigSource.strings ["a"]) = Except.ok ["a", "a"] ∧
    List.count "a" ["a", "a"] = 2 :=
  ⟨rfl, by decide⟩

/-- C2 amended: the monitored tunnel list is the config-file names followed
by the CLI names with duplicates preserved — each name occurs once per
occurrence in the config file plus once per occurrence in the CLI list. -/
theorem claim_C2_amended (cli cfgNames : List String)
    (h : cli ≠ [] ∨ cfgNames ≠ []) :
    initTunnels cli (ConfigSource.strings cfgNames) =
      Except.ok (cfgNames ++ cli) ∧
    ∀ N, List.count N (cfgNames ++ cli) =
      List.count N cfgNames + List.count N cli := by
  constructor
  · have hc : ¬(¬ cli.length > 0 ∧ cfgNames = []) := by
      rcases h with h | h
      · rintro ⟨hl, -⟩
        exact hl (List.length_pos.2 h)
      · rintro ⟨-, he⟩
        exact h he
    simp only [initTunnels, loadConfiguration, if_neg hc]
  · intro N
    exact List.count_append N cfgNames cli

/-- C2 amended witness: config `["a"]` plus CLI `["b"]` yields `["a", "b"]`. -/
theorem claim_C2_amended_wit :
    initTunnels ["b"] (ConfigSource.strings ["a"]) = Except.ok ["a", "b"] :=
  (claim_C2_amended ["b"] ["a"] (Or.inl (by decide))).1

/-- C3 counterexample: two single-record listings over the identical record,
differing only in whether the state field arrives as bytes or as text,
produce different DownSets and cycle results — `str(state, "UTF-8")` raises
on a text state, aborting the cycle. -/
theorem claim_C3_cex :
    runCycle ["a"] [Except.ok ⟨VStr.bytes "a", VStr.bytes "INSTALLED"⟩] =
      ⟨0, []⟩ ∧
    runCycle ["a"] [Except.ok ⟨VStr.bytes "a", VStr.text "INSTALLED"⟩] =
      ⟨1, []⟩ := by
  decide

/-- C3 amended: the child-SA identifier is normalized to text whether it
arrives as bytes or as text — listings agreeing up to identifier
representation produce identical cycle outcomes — but the state field is
decoded assuming bytes: a record whose state arrives as text raises,
aborting the cycle. -/
theorem claim_C3_amended :
    (∀ tunnels l₁ l₂, List.Forall₂ ReprEquiv l₁ l₂ →
      runCycle tunnels l₁ = runCycle tunnels l₂) ∧
    (∀ down r s, r.state = VStr.text s →
      processRawRecord down r = Except.error ()) := by
  constructor
  · intro tunnels l₁ l₂ h
    unfold runCycle
    rw [runCycleAux_congr tunnels l₁ l₂ h]
  · intro down r s hs
    unfold processRawRecord
    rw [hs]
    rfl

/-- C3 amended witness: a bytes identifier and a text identifier with the
same content give the same cycle outcome. -/
theorem claim_C3_amended_wit :
    runCycle ["a"] [Except.ok ⟨VStr.bytes "a", VStr.bytes "INSTALLED"⟩] =
    runCycle ["a"] [Except.ok ⟨VStr.text "a", VStr.bytes "INSTALLED"⟩] :=
  claim_C3_amended.1 ["a"] _ _
    (List.Forall₂.cons ⟨rfl, rfl⟩ List.Forall₂.nil)

/-- C10: an exception raised at any point while iterating or decoding the
collaborator's listing — including after some records were processed — makes
the cycle return 1 with no remediation invoked; `resetTunnels` receives a
non-empty down list only when the whole listing was consumed without
error. -/
theorem claim_C10_containment (tunnels : List String)
    (listing : List (Except Unit SARecord)) :
    (∀ pre post, runCycle tunnels (pre ++ Except.error () :: post) =
      ⟨1, []⟩) ∧
    (∀ e, runCycleAux tunnels listing = Except.error e →
      runCycle tunnels listing = ⟨1, []⟩) ∧
    ((runCycle tunnels listing).remediated ≠ [] →
      runCycleAux tunnels listing =
        Except.ok ((runCycle tunnels listing).remediated)) := by
  refine ⟨?_, ?_, ?_⟩
  · intro pre post
    obtain ⟨e, he⟩ := runCycleAux_error_append pre tunnels post
    simp [runCycle, he]
  · intro e he
    simp [runCycle, he]
  · intro hrem
    cases h : runCycleAux tunnels listing with
    | error e => simp [runCycle, h] at hrem
    | ok d =>
      by_cases hl : d.length > 0
      · simp [runCycle, h, hl]
      · simp [runCycle, h, hl] at hrem

/-- C10 witness: an exception after a first successfully processed record
still yields run value 1 with no remediation. -/
theorem claim_C10_containment_wit :
    runCycle ["a", "b"]
      [Except.ok ⟨VStr.bytes "a", VStr.bytes "INSTALLED"⟩,
        Except.error ()] = ⟨1, []⟩ :=
  (claim_C10_containment ["a", "b"] []).1
    [Except.ok ⟨VStr.bytes "a", VStr.bytes "INSTALLED"⟩] []

theorem invokeCount_invoke (a t : String) (tr : List Ev) :
    invokeCount (Ev.invoke a t :: tr) = invokeCount tr + 1 := by
  simp [invokeCount, List.filter_cons]

theorem invokeCount_wait (w : Nat) (tr : List Ev) :
    invokeCount (Ev.wait w :: tr) = invokeCount tr := by
  simp [invokeCount, List.filter_cons]

theorem waitTimes_invoke (a t : String) (tr : List Ev) :
    waitTimes (Ev.invoke a t :: tr) = waitTimes tr := by
  simp [waitTimes, List.filterMap_cons]

theorem waitTimes_wait (w : Nat) (tr : List Ev) :
    waitTimes (Ev.wait w :: tr) = w :: waitTimes tr := by
  simp [waitTimes, List.filterMap_cons]

theorem runCmdGo_succeeds (oracle : Nat → Bool) (m d : Nat)
    (action tunnel : String) :
    ∀ (k n a : Nat), a + n = m → k < n →
      (∀ i, a ≤ i → i < a + k → oracle i = false) →
      oracle (a + k) = true →
      (runCmdGo oracle m d action tunnel (List.range' a n)).1 = true ∧
      invokeCount (runCmdGo oracle m d action tunnel (List.range' a n)).2 =
        k + 1 ∧
      waitTimes (runCmdGo oracle m d action tunnel (List.range' a n)).2 =
        (List.range' a k).map (fun i => d * 2 ^ i) := by
  intro k
  induction k with
  | zero =>
    intro n a hm hk hfail hsucc
    obtain ⟨n', rfl⟩ : ∃ n', n = n' + 1 := ⟨n - 1, by omega⟩
    rw [Nat.add_zero] at hsucc
    rw [List.range'_succ]
    simp [runCmdGo, hsucc, invokeCount, waitTimes]
  | succ k' ih =>
    intro n a hm hk hfail hsucc
    obtain ⟨n', rfl⟩ : ∃ n', n = n' + 1 := ⟨n - 1, by omega⟩
    have h0 : oracle a = false := hfail a le_rfl (by omega)
    have hws : a < m - 1 := by omega
    have IH := ih n' (a + 1) (by omega) (by omega)
      (fun i h1 h2 => hfail i (by omega) (by omega))
      (by rw [show a + 1 + k' = a + (k' + 1) by omega]; exact hsucc)
    rw [List.range'_succ]
    have hstep : runCmdGo oracle m d action tunnel (a :: List.range' (a + 1) n') =
        ((runCmdGo oracle m d action tunnel (List.range' (a + 1) n')).1,
          Ev.invoke action tunnel :: (Ev.wait (d * 2 ^ a) ::
            (runCmdGo oracle m d action tunnel (List.range' (a + 1) n')).2)) := by
      simp [runCmdGo, h0, hws]
    rw [hstep]
    refine ⟨IH.1, ?_, ?_⟩
    · rw [invokeCount_invoke, invokeCount_wait, IH.2.1]
    · rw [waitTimes_invoke, waitTimes_wait, IH.2.2, List.range'_succ,
        List.map_cons]

theorem runCmdGo_fails (oracle : Nat → Bool) (m d : Nat)
    (action tunnel : String) :
    ∀ (n a : Nat), a + n = m →
      (∀ i, a ≤ i → i < m → oracle i = false) →
      (runCmdGo oracle m d action tunnel (List.range' a n)).1 = false ∧
      invokeCount (runCmdGo oracle m d action tunnel (List.range' a n)).2 =
        n ∧
      waitTimes (runCmdGo oracle m d action tunnel (List.range' a n)).2 =
        (List.range' a (n - 1)).map (fun i => d * 2 ^ i) := by
  intro n
  induction n with
  | zero =>
    intro a hm hfail
    simp [runCmdGo, invokeCount, waitTimes]
  | succ n' ih =>
    intro a hm hfail
    have h0 : oracle a = false := hfail a le_rfl (by omega)
    rw [List.range'_succ]
    cases n' with
    | zero =>
      have hws : ¬ a < m - 1 := by omega
      simp [runCmdGo, h0, hws, invokeCount, waitTimes]
    | succ n'' =>
      have hws : a < m - 1 := by omega
      have IH := ih (a + 1) (by omega) (fun i h1 h2 => hfail i (by omega) h2)
      have hstep : runCmdGo oracle m d action tunnel
          (a :: List.range' (a + 1) (n'' + 1)) =
          ((runCmdGo oracle m d action tunnel
              (List.range' (a + 1) (n'' + 1))).1,
            Ev.invoke action tunnel :: (Ev.wait (d * 2 ^ a) ::
              (runCmdGo oracle m d action tunnel
                (List.range' (a + 1) (n'' + 1))).2)) := by
        simp [runCmdGo, h0, hws]
      rw [hstep]
      refine ⟨IH.1, ?_, ?_⟩
      · rw [invokeCount_invoke, invokeCount_wait, IH.2.1]
      · rw [waitTimes_invoke, waitTimes_wait, IH.2.2,
          show n'' + 1 + 1 - 1 = n'' + 1 from rfl,
          show n'' + 1 - 1 = n'' from rfl, List.range'_succ, List.map_cons]

theorem runCmdGo_mem (oracle : Nat → Bool) (m d : Nat)
    (action tunnel : String) :
    ∀ (l : List Nat) (e : Ev),
      e ∈ (runCmdGo oracle m d action tunnel l).2 →
      e = Ev.invoke action tunnel ∨ ∃ w, e = Ev.wait w := by
  intro l
  induction l with
  | nil =>
    intro e he
    simp [runCmdGo] at he
  | cons a rest ih =>
    intro e he
    cases h0 : oracle a with
    | true =>
      simp [runCmdGo, h0] at he
      exact Or.inl he
    | false =>
      by_cases hws : a < m - 1
      · simp [runCmdGo, h0, hws] at he
        rcases he with rfl | rfl | hmem
        · exact Or.inl rfl
        · exact Or.inr ⟨_, rfl⟩
        · exact ih e hmem
      · simp [runCmdGo, h0, hws] at he
        rcases he with rfl | hmem
        · exact Or.inl rfl
        · exact ih e hmem

theorem runCmdGo_invoke_mem (oracle : Nat → Bool) (m d : Nat)
    (action tunnel : String) :
    ∀ (l : List Nat), l ≠ [] →
      Ev.invoke action tunnel ∈ (runCmdGo oracle m d action tunnel l).2 := by
  intro l hne
  cases l with
  | nil => exact absurd rfl hne
  | cons a rest =>
    cases h0 : oracle a with
    | true => simp [runCmdGo, h0]
    | false => simp [runCmdGo, h0]

theorem runCommand_true_pos (oracle : Nat → Bool) (m d : Nat)
    (action tunnel : String)
    (h : (runCommand oracle m d action tunnel).1 = true) : 0 < m := by
  by_contra hm
  have hm0 : m = 0 := by omega
  subst hm0
  simp [runCommand, runCmdGo, List.range_zero] at h

/-- C7: retry with exponential backoff — if the command fails on the first
`k` attempts (`k < m`) and succeeds on attempt `k + 1`, exactly `k + 1`
invocations happen, the result is success, and the waits are
`d * 2 ^ 0, …, d * 2 ^ (k-1)`; after `m` consecutive failures the result is
failure with `m` invocations and only `m - 1` waits (none after the final
attempt). -/
theorem claim_C7_retry_backoff (oracle : Nat → Bool) (m d : Nat)
    (action tunnel : String) :
    (∀ k, k < m → (∀ i, i < k → oracle i = false) → oracle k = true →
      (runCommand oracle m d action tunnel).1 = true ∧
      invokeCount (runCommand oracle m d action tunnel).2 = k + 1 ∧
      waitTimes (runCommand oracle m d action tunnel).2 =
        (List.range k).map (fun i => d * 2 ^ i)) ∧
    ((∀ i, i < m → oracle i = false) →
      (runCommand oracle m d action tunnel).1 = false ∧
      invokeCount (runCommand oracle m d action tunnel).2 = m ∧
      waitTimes (runCommand oracle m d action tunnel).2 =
        (List.range (m - 1)).map (fun i => d * 2 ^ i)) := by
  constructor
  · intro k hk hfail hsucc
    have h := runCmdGo_succeeds oracle m d action tunnel k m 0 (by omega) hk
      (fun i h1 h2 => hfail i (by omega)) (by simpa using hsucc)
    rw [runCommand, List.range_eq_range']
    exact ⟨h.1, h.2.1, by rw [h.2.2, List.range_eq_range']⟩
  · intro hfail
    have h := runCmdGo_fails oracle m d action tunnel m 0 (by omega)
      (fun i h1 h2 => hfail i h2)
    rw [runCommand, List.range_eq_range']
    exact ⟨h.1, h.2.1, by rw [h.2.2, List.range_eq_range']⟩

/-- C7 witness: with `maxRetries = 3` and `baseDelay = 2`, a command failing
once then succeeding makes 2 invocations with a single wait of
`2 * 2 ^ 0 = 2`. -/
theorem claim_C7_retry_backoff_wit :
    (runCommand (fun i => i == 1) 3 2 "down" "t").1 = true ∧
    invokeCount (runCommand (fun i => i == 1) 3 2 "down" "t").2 = 2 ∧
    waitTimes (runCommand (fun i => i == 1) 3 2 "down" "t").2 = [2] := by
  have h := (claim_C7_retry_backoff (fun i => i == 1) 3 2 "down" "t").1 1
    (by omega)
    (fun i hi => by
      have hz : i = 0 := by omega
      subst hz
      rfl)
    rfl
  refine ⟨h.1, h.2.1, ?_⟩
  rw [h.2.2]
  decide

/-- C8: per-tunnel remediation sequencing — the `up` command is invoked iff
the `down` command reported success; on success the trace is the `down`
trace, a settle sleep of 1, then the `up` trace (which invokes `up`); when
`down` exhausts its retries the trace is the `down` trace alone. -/
theorem claim_C8_down_then_up (downO upO : Nat → Bool) (m d : Nat)
    (t : String) :
    (Ev.invoke "up" t ∈ resetTunnel downO upO m d t ↔
      (runCommand downO m d "down" t).1 = true) ∧
    ((runCommand downO m d "down" t).1 = true →
      resetTunnel downO upO m d t =
        (runCommand downO m d "down" t).2 ++
          Ev.wait 1 :: (runCommand upO m d "up" t).2 ∧
      Ev.invoke "up" t ∈ (runCommand upO m d "up" t).2) ∧
    ((runCommand downO m d "down" t).1 = false →
      resetTunnel downO upO m d t = (runCommand downO m d "down" t).2) := by
  have hup_mem : (runCommand downO m d "down" t).1 = true →
      Ev.invoke "up" t ∈ (runCommand upO m d "up" t).2 := by
    intro h
    have hm : 0 < m := runCommand_true_pos downO m d "down" t h
    have hne : List.range m ≠ [] := by
      simp only [ne_eq, List.range_eq_nil]
      omega
    exact runCmdGo_invoke_mem upO m d "up" t _ hne
  have htr_pos : (runCommand downO m d "down" t).1 = true →
      resetTunnel downO upO m d t =
        (runCommand downO m d "down" t).2 ++
          Ev.wait 1 :: (runCommand upO m d "up" t).2 := by
    intro h
    simp [resetTunnel, h]
  have htr_neg : (runCommand downO m d "down" t).1 = false →
      resetTunnel downO upO m d t = (runCommand downO m d "down" t).2 := by
    intro h
    simp [resetTunnel, h]
  refine ⟨⟨?_, ?_⟩, fun h => ⟨htr_pos h, hup_mem h⟩, htr_neg⟩
  · intro hmem
    cases hcase : (runCommand downO m d "down" t).1 with
    | true => rfl
    | false =>
      rw [htr_neg hcase] at hmem
      rcases runCmdGo_mem downO m d "down" t (List.range m) _ hmem with
        heq | ⟨w, heq⟩
      · injection heq with h1 h2
        exact absurd h1 (by decide)
      · exact Ev.noConfusion heq
  · intro h
    rw [htr_pos h]
    exact List.mem_append_right _ (List.mem_cons_of_mem _ (hup_mem h))

/-- C8 witness: with both commands succeeding immediately and one retry
allowed, the observed trace is down-invoke, settle sleep 1, up-invoke. -/
theorem claim_C8_down_then_up_wit :
    resetTunnel (fun _ => true) (fun _ => true) 1 2 "t" =
      [Ev.invoke "down" "t", Ev.wait 1, Ev.invoke "up" "t"] := by
  have h := (claim_C8_down_then_up (fun _ => true) (fun _ => true) 1 2
    "t").2.1 rfl
  rw [h.1]
  decide

theorem runDaemonAux_exit (cycles : Nat → Except DaemonExc Nat)
    (e : DaemonExc) :
    ∀ (k j fuel : Nat),
      (∀ i, i < k → ∃ v, cycles (j + i) = Except.ok v) →
      cycles (j + k) = Except.error e → k < fuel →
      runDaemonAux cycles j fuel =
        some (match e with | .interrupt => 0 | .other => 6) := by
  intro k
  induction k with
  | zero =>
    intro j fuel hok he hf
    obtain ⟨f, rfl⟩ : ∃ f, fuel = f + 1 := ⟨fuel - 1, by omega⟩
    rw [Nat.add_zero] at he
    cases e <;> simp [runDaemonAux, he]
  | succ k' ih =>
    intro j fuel hok he hf
    obtain ⟨f, rfl⟩ : ∃ f, fuel = f + 1 := ⟨fuel - 1, by omega⟩
    obtain ⟨v, hv⟩ := hok 0 (by omega)
    rw [Nat.add_zero] at hv
    have hstep : runDaemonAux cycles j (f + 1) =
        runDaemonAux cycles (j + 1) f := by
      simp [runDaemonAux, hv]
    rw [hstep]
    refine ih (j + 1) f (fun i hi => ?_) ?_ (by omega)
    · have h := hok (i + 1) (by omega)
      rwa [show j + (i + 1) = j + 1 + i by omega] at h
    · rwa [show j + 1 + k' = j + (k' + 1) by omega]

/-- C9: daemon termination — if the first `k` loop iterations complete and
an exception escapes iteration `k`, a user interrupt terminates the daemon
with exit status 0 while any other exception terminates it with the
distinct fatal exit status 6. -/
theorem claim_C9_daemon_exit (cycles : Nat → Except DaemonExc Nat)
    (k fuel : Nat) (e : DaemonExc)
    (hok : ∀ i, i < k → ∃ v, cycles i = Except.ok v)
    (he : cycles k = Except.error e) (hf : k < fuel) :
    (e = DaemonExc.interrupt → run_daemon cycles fuel = some 0) ∧
    (e = DaemonExc.other → run_daemon cycles fuel = some 6) := by
  have h := runDaemonAux_exit cycles e k 0 fuel
    (fun i hi => by simpa using hok i hi) (by simpa using he) hf
  constructor
  · rintro rfl
    exact h
  · rintro rfl
    exact h

/-- C9 witness: two completed cycles followed by a user interrupt make the
daemon exit with status 0. -/
theorem claim_C9_daemon_exit_wit :
    run_daemon
      (fun i => if i < 2 then Except.ok 0
        else Except.error DaemonExc.interrupt) 5 = some 0 :=
  (claim_C9_daemon_exit _ 2 5 DaemonExc.interrupt
    (fun i hi => ⟨0, by rw [if_pos hi]⟩) (by rfl) (by omega)).1 rfl

end Mipsec
